import Mathlib

/-
Verification of the commit-farm daemon (src/commit_farm.py) against its
natural-language specification.

Modelling conventions for the shallow embedding:
* Timestamps within a calendar day are modelled as seconds-of-day
  (natural numbers); `datetime.now()` within the generator is the
  parameter `now`.  ISO serialisation is an external, injective,
  order-preserving encoding supplied by the standard library, so
  functions that parse stored strings are parameterised over a
  `parse : String → Option ℕ` collaborator (the model of
  `datetime.fromisoformat`, which returns `none` where Python raises).
* Randomness (`random.randint`, `random.sample`) is modelled by passing
  the drawn values as parameters; the guarantees of the drawing
  primitives (range of the drawn count, distinctness and range of the
  sampled offsets, ascending order after `sorted`) become hypotheses.
* Process-exiting paths (`sys.exit(1)`, uncaught exceptions reaching the
  top-level handler) are modelled with `Except`, where `.error` means
  the scheduling loop aborts and the process exits non-zero.
-/

namespace CommitFarm

/-- One hour in seconds; used to turn the configured window hours into
seconds-of-day, the embedding of `now.replace(hour=h, minute=0, second=0)`. -/
def secondsPerHour : ℕ := 3600

/-- Embedding of `generate_schedule_for_today` (src/commit_farm.py lines
177-211).  `offsets` stands for `sorted(random.sample(range(total_seconds),
commit_count))`, the random draw, passed in as a parameter; the returned
timestamps are the seconds-of-day values that the source serialises with
`isoformat`.  The source returns `[]` when `now > day_end` or when the
window has non-positive width, and otherwise keeps only the sampled times
that are strictly in the future. -/
def generate_schedule_for_today (start_hour end_hour : ℕ)
    (offsets : List ℕ) (now : ℕ) : List ℕ :=
  let day_start := start_hour * secondsPerHour
  let day_end := end_hour * secondsPerHour
  if day_end < now then []
  else
    let total_seconds := day_end - day_start
    if total_seconds = 0 then []
    else (offsets.map fun o => day_start + o).filter fun t => now < t

/-- Embedding of the clamp `commit_count = min(commit_count, max(1,
total_seconds))` (line 200): the number of offsets actually sampled. -/
def clamped_count (commit_count total_seconds : ℕ) : ℕ :=
  min commit_count (max 1 total_seconds)

/-- JSON values as manipulated by `json.load` / `json.dump`; numbers are
irrelevant to the state file and modelled as integers. -/
inductive JsonVal where
  | null
  | bool (b : Bool)
  | num (n : Int)
  | str (s : String)
  | arr (xs : List JsonVal)
  | obj (kvs : List (String × JsonVal))

/-- Embedding of the state record built in `main` (lines 313 and 329),
`state = {"date": today_str(), "scheduled_times": scheduled_times}`:
the JSON object that `write_state` (lines 162-168) serialises to
`state.json`, given as its association list. -/
def state_record (date : String) (times : List String) :
    List (String × JsonVal) :=
  [("date", .str date), ("scheduled_times", .arr (times.map .str))]

/-- Embedding of the persisted state as the scheduling loop manipulates
it: the schedule date string and the pending ISO timestamp strings. -/
structure FarmState where
  date : String
  scheduled_times : List String
deriving Repr, DecidableEq

/-- Embedding of the day-rollover check at the top of the scheduling loop
(lines 327-331), which is also the INIT branch (lines 311-315): when the
stored date differs from today the whole record is replaced by a fresh
one; `fresh` stands for the output of `refresh_schedule()`. -/
def rollover_refresh (today : String) (fresh : List String)
    (st : FarmState) : FarmState :=
  if st.date ≠ today then { date := today, scheduled_times := fresh } else st

/-- Embedding of the consumption step (line 369),
`scheduled_times = [t for t in scheduled_times if t != nxt.isoformat()]`:
the fired timestamp is removed from the pending list by value. -/
def remove_fired (v : String) (times : List String) : List String :=
  times.filter fun t => t ≠ v

/-- Embedding of `next_scheduled_time` (lines 214-224): walk the stored
strings in order; an entry that fails to parse is skipped (the source
catches the exception and continues), an entry not strictly in the
future is skipped, and the first strictly-future entry is returned
parsed; `none` when no entry qualifies.  `parse` models
`datetime.fromisoformat` on seconds-of-day values. -/
def next_scheduled_time (parse : String → Option ℕ) (now : ℕ) :
    List String → Option ℕ
  | [] => none
  | t :: ts =>
    match parse t with
    | some dt =>
      if now < dt then some dt else next_scheduled_time parse now ts
    | none => next_scheduled_time parse now ts

/-- Embedding of the RESUME purge comprehension (line 319),
`[t for t in scheduled_times if datetime.fromisoformat(t) > now]`: each
stored entry is parsed in order and the future ones are kept; a parse
failure raises `ValueError`, which no handler inside `main` catches, so
the comprehension aborts (modelled as `.error` carrying the bad entry). -/
def resume_purge (parse : String → Option ℕ) (now : ℕ) :
    List String → Except String (List String)
  | [] => .ok []
  | t :: ts =>
    match parse t with
    | none => .error t
    | some dt =>
      match resume_purge parse now ts with
      | .error e => .error e
      | .ok rest => .ok (if now < dt then t :: rest else rest)

/-- Embedding of the INIT dispatch of `main` (lines 311-322): a stored
date different from today triggers RESCHEDULE (wholesale replacement by
the fresh schedule), while a matching date triggers RESUME, which purges
stale entries with `resume_purge` and keeps the date. -/
def init_branch (parse : String → Option ℕ) (today : String) (now : ℕ)
    (fresh : List String) (st : FarmState) : Except String FarmState :=
  if st.date ≠ today then .ok { date := today, scheduled_times := fresh }
  else
    (resume_purge parse now st.scheduled_times).map
      fun times => { st with scheduled_times := times }

/-- Embedding of the top-level handler (lines 379-384): an exception
escaping `main` is logged as fatal and the process exits 1; a normal
return exits 0. -/
def process_exit_code {α : Type} (r : Except String α) : ℕ :=
  match r with
  | .ok _ => 0
  | .error _ => 1

/-- Result of one `subprocess.run` invocation of git: the exit code and
the captured stderr text (stdout is irrelevant to the claims). -/
structure ProcResult where
  code : Int
  stderr : String

/-- Lowercasing, the embedding of `str.lower()` on the ASCII error text
the source inspects. -/
def strLower (s : String) : String := ⟨s.data.map Char.toLower⟩

/-- Helper for the substring test: does the haystack start with the
needle. -/
def listStartsWith : List Char → List Char → Bool
  | [], _ => true
  | _ :: _, [] => false
  | a :: as, b :: bs => a == b && listStartsWith as bs

/-- Helper for the substring test: does the needle occur at some
position of the haystack. -/
def containsFrom (needle : List Char) : List Char → Bool
  | [] => listStartsWith needle []
  | a :: as => listStartsWith needle (a :: as) || containsFrom needle as

/-- Substring test, the embedding of the Python expression
`"nothing to commit" in err.lower()`. -/
def containsText (needle s : String) : Bool :=
  containsFrom needle.data s.data

/-- Embedding of `run_git_command` (lines 110-125): when the git binary
is missing, `FileNotFoundError` is caught and the process exits
(`sys.exit(1)`, modelled as `.error`); otherwise the completed process
result is returned — a non-zero exit code is merely logged, with or
without `allow_fail`, and still returned normally. -/
def run_git_command (gitPresent : Bool) (r : ProcResult) :
    Except String ProcResult :=
  if gitPresent then .ok r else .error "git not found in PATH"

/-- Observable classification of one `perform_commit` run, following the
log lines the source emits. -/
inductive CommitOutcome where
  | nothingToCommit
  | commitFailed
  | committed (pushResult : Option Bool)
deriving Repr, DecidableEq

/-- Embedding of `perform_commit` (lines 252-271): stage the file, run
`git commit`, and inspect its exit code — a failing commit is classified
as nothing-to-commit or commit-failed and the function returns normally
in both cases; on success it optionally pushes, and a push failure is
only logged.  The sole abnormal exit is `run_git_command` terminating
the process because git is absent. -/
def perform_commit (gitPresent : Bool)
    (addRes commitRes pushRes : ProcResult) (push : Bool) :
    Except String CommitOutcome :=
  match run_git_command gitPresent addRes with
  | .error e => .error e
  | .ok _ =>
    match run_git_command gitPresent commitRes with
    | .error e => .error e
    | .ok c =>
      if c.code ≠ 0 then
        if containsText "nothing to commit" (strLower c.stderr) then
          .ok .nothingToCommit
        else
          .ok .commitFailed
      else
        if push then
          match run_git_command gitPresent pushRes with
          | .error e => .error e
          | .ok p =>
            if p.code ≠ 0 then .ok (.committed (some false))
            else .ok (.committed (some true))
        else
          .ok (.committed none)

/-- Embedding of the FIRE section of the scheduling loop (lines 359-371):
append a line to the activity file, run `perform_commit`, then remove the
consumed timestamp and persist the survivor list.  `appendRes` models
`append_activity_line`: `.ok` when its file operations succeed, `.error`
when any of them raises — no handler inside the loop catches such an
exception, so it propagates. -/
def fire_step (appendRes : Except String Unit) (gitPresent : Bool)
    (addRes commitRes pushRes : ProcResult) (push : Bool)
    (fired : String) (times : List String) :
    Except String (CommitOutcome × List String) :=
  match appendRes with
  | .error e => .error e
  | .ok _ =>
    match perform_commit gitPresent addRes commitRes pushRes push with
    | .error e => .error e
    | .ok oc => .ok (oc, remove_fired fired times)

/-- Embedding of the IDLE_SLEEP chunk loop (lines 340-344),
`while slept < sleep_seconds and not killer.should_terminate:
time.sleep(min(60.0, sleep_seconds - slept))`.  `kill i` is the value of
`killer.should_terminate` observed at the i-th evaluation of the loop
condition; the result lists the individual sleep increments actually
performed, with time in whole units. -/
def idle_sleep_chunks : ℕ → (ℕ → Bool) → List ℕ
  | 0, _ => []
  | remaining + 1, kill =>
    if kill 0 then []
    else
      min 60 (remaining + 1) ::
        idle_sleep_chunks (remaining + 1 - min 60 (remaining + 1))
          fun i => kill (i + 1)
termination_by remaining _ => remaining
decreasing_by omega

/-- Embedding of the EVENT_SLEEP chunk loop (lines 350-354), identical to
the idle loop but with 30-unit increments:
`step = min(30.0, delta - slept); time.sleep(step)`. -/
def event_sleep_chunks : ℕ → (ℕ → Bool) → List ℕ
  | 0, _ => []
  | remaining + 1, kill =>
    if kill 0 then []
    else
      min 30 (remaining + 1) ::
        event_sleep_chunks (remaining + 1 - min 30 (remaining + 1))
          fun i => kill (i + 1)
termination_by remaining _ => remaining
decreasing_by omega

/-- Embedding of the pre-fire check (lines 356-357): after the event
sleep, `killer.should_terminate` is read once more — observation number
(chunks slept) — and the side effect fires only when it is still false. -/
def event_wait_fires (delta : ℕ) (kill : ℕ → Bool) : Bool :=
  !(kill (event_sleep_chunks delta kill).length)

/-- Possible outcomes of locating and reading the state file inside
`read_state`: the file is absent, opening or reading it raises, or its
full text is obtained. -/
inductive ReadOutcome where
  | missing
  | unreadable
  | content (s : String)

/-- Embedding of `read_state` (lines 151-159): a missing file yields the
empty record, any exception while opening, reading or JSON-parsing yields
the empty record, and otherwise the parsed JSON value is returned.
`json.load` is an external collaborator modelled by `parseJson`, which
returns `none` where Python raises. -/
def read_state (parseJson : String → Option JsonVal) :
    ReadOutcome → JsonVal
  | .missing => .obj []
  | .unreadable => .obj []
  | .content s =>
    match parseJson s with
    | none => .obj []
    | some v => v

end CommitFarm

namespace CommitFarm

/-- C1 (counterexample to the original claim): with the valid window
10:00-22:00, `min_events = max_events = 1`, a drawn count of 1 and the
legal sample `[0]` of `range(43200)`, starting at `now` = 10:00:01 —
inside the 12-hour-wide window and almost 12 hours before its end — the
generator produces no timestamp at all, although `min_events ≥ 1`: every
sampled offset may land in the past once `now` is inside the window. -/
theorem generate_schedule_min_events_counterexample :
    generate_schedule_for_today 10 22 [0] 36001 = [] ∧
    List.length [0] =
      clamped_count 1 (22 * secondsPerHour - 10 * secondsPerHour) ∧
    0 < 22 * secondsPerHour - 10 * secondsPerHour ∧
    36001 ≤ 22 * secondsPerHour ∧
    36001 + 7200 ≤ 22 * secondsPerHour := by decide

/-- C1 (amended): for every valid window configuration, every legal random
draw and every `now` at most the window end, each produced timestamp lies
in `[day_start, day_end)` and is strictly greater than `now`, and at most
`max_commits` timestamps are produced; moreover at least one timestamp is
produced whenever `min_commits ≥ 1` and `now` is strictly before the
window START (rather than merely before the window end). -/
theorem generate_schedule_bounds
    (start_hour end_hour min_commits max_commits commit_count now : ℕ)
    (offsets : List ℕ)
    (hse : start_hour < end_hour) (_hend23 : end_hour ≤ 23)
    (hmin : 1 ≤ min_commits) (_hmm : min_commits ≤ max_commits)
    (hcc1 : min_commits ≤ commit_count) (hcc2 : commit_count ≤ max_commits)
    (hlen : offsets.length =
      clamped_count commit_count
        (end_hour * secondsPerHour - start_hour * secondsPerHour))
    (hofs : ∀ o ∈ offsets,
      o < end_hour * secondsPerHour - start_hour * secondsPerHour)
    (hnow : now ≤ end_hour * secondsPerHour) :
    (∀ t ∈ generate_schedule_for_today start_hour end_hour offsets now,
        start_hour * secondsPerHour ≤ t ∧ t < end_hour * secondsPerHour ∧
          now < t) ∧
    (generate_schedule_for_today start_hour end_hour offsets now).length ≤
      max_commits ∧
    (now < start_hour * secondsPerHour →
      1 ≤ (generate_schedule_for_today start_hour end_hour offsets now).length) := by
  have hes : start_hour * secondsPerHour < end_hour * secondsPerHour := by
    have h : 0 < secondsPerHour := by decide
    exact (Nat.mul_lt_mul_right h).mpr hse
  have htot : end_hour * secondsPerHour - start_hour * secondsPerHour ≠ 0 := by
    omega
  have hgen : generate_schedule_for_today start_hour end_hour offsets now =
      (offsets.map fun o => start_hour * secondsPerHour + o).filter
        fun t => now < t := by
    unfold generate_schedule_for_today
    simp only [if_neg (by omega : ¬ end_hour * secondsPerHour < now),
      if_neg htot]
  refine ⟨?_, ?_, ?_⟩
  · intro t ht
    rw [hgen, List.mem_filter] at ht
    obtain ⟨hmem, hfut⟩ := ht
    obtain ⟨o, ho, rfl⟩ := List.mem_map.mp hmem
    have := hofs o ho
    refine ⟨Nat.le_add_right _ _, by omega, by simpa using hfut⟩
  · rw [hgen]
    calc ((offsets.map fun o => start_hour * secondsPerHour + o).filter
            fun t => now < t).length
        ≤ (offsets.map fun o => start_hour * secondsPerHour + o).length :=
          List.length_filter_le _ _
      _ = offsets.length := List.length_map _ _
      _ ≤ commit_count := by
          rw [hlen]; exact Nat.min_le_left _ _
      _ ≤ max_commits := hcc2
  · intro hbefore
    rw [hgen]
    have hall : ((offsets.map fun o => start_hour * secondsPerHour + o).filter
        fun t => now < t) = offsets.map fun o => start_hour * secondsPerHour + o := by
      apply List.filter_eq_self.mpr
      intro a ha
      obtain ⟨o, _, rfl⟩ := List.mem_map.mp ha
      simpa using Nat.lt_of_lt_of_le hbefore (Nat.le_add_right _ _)
    rw [hall, List.length_map, hlen]
    have h1 : 1 ≤ commit_count := le_trans hmin hcc1
    have h2 : 1 ≤ max 1 (end_hour * secondsPerHour - start_hour * secondsPerHour) :=
      le_max_left _ _
    exact le_min h1 h2

/-- C1 (witness): the amended bound theorem instantiated at the window
10:00-22:00 with `min_commits = 1`, `max_commits = 2`, a drawn count of 1,
the sample `[5]` and `now` = midnight, which is before the window start,
so at least one timestamp is guaranteed. -/
theorem generate_schedule_bounds_witness :
    (∀ t ∈ generate_schedule_for_today 10 22 [5] 0,
        10 * secondsPerHour ≤ t ∧ t < 22 * secondsPerHour ∧ 0 < t) ∧
    (generate_schedule_for_today 10 22 [5] 0).length ≤ 2 ∧
    (0 < 10 * secondsPerHour →
      1 ≤ (generate_schedule_for_today 10 22 [5] 0).length) :=
  generate_schedule_bounds 10 22 1 2 1 0 [5] (by decide) (by decide)
    (by decide) (by decide) (by decide) (by decide) (by decide)
    (by decide) (by decide)

/-- C7: every generated schedule is strictly ascending, hence all its
timestamps are pairwise distinct, provided the sampled offsets are (as
`sorted(random.sample(...))` guarantees) strictly ascending. -/
theorem generate_schedule_sorted_nodup (start_hour end_hour now : ℕ)
    (offsets : List ℕ) (hsort : offsets.Sorted (· < ·)) :
    (generate_schedule_for_today start_hour end_hour offsets now).Sorted (· < ·) ∧
    (generate_schedule_for_today start_hour end_hour offsets now).Nodup := by
  have hsorted :
      (generate_schedule_for_today start_hour end_hour offsets now).Sorted (· < ·) := by
    simp only [generate_schedule_for_today]
    split
    · exact List.sorted_nil
    · split
      · exact List.sorted_nil
      · apply List.Pairwise.filter
        exact hsort.map _ (fun a b hab => Nat.add_lt_add_left hab _)
  exact ⟨hsorted, hsorted.imp fun h => Nat.ne_of_lt h⟩

/-- C7 (witness): the sortedness theorem instantiated at a concrete draw. -/
theorem generate_schedule_sorted_nodup_witness :
    (generate_schedule_for_today 10 22 [0, 5, 40000] 36001).Sorted (· < ·) ∧
    (generate_schedule_for_today 10 22 [0, 5, 40000] 36001).Nodup :=
  generate_schedule_sorted_nodup 10 22 36001 [0, 5, 40000] (by decide)

/-- C3 (counterexample to the original claim): the record that `main`
builds and `write_state` persists keeps the remaining timestamps under
the key `scheduled_times`; at a concrete state there is no entry under
the claimed key `pending_times`. -/
theorem state_record_key_counterexample :
    List.lookup "pending_times"
      (state_record "2025-01-01" ["2025-01-01T10:00:00"]) = none ∧
    List.lookup "scheduled_times"
      (state_record "2025-01-01" ["2025-01-01T10:00:00"]) =
      some (.arr [.str "2025-01-01T10:00:00"]) := ⟨rfl, rfl⟩

/-- C3 (amended): the persisted record is a single object with schema
`{date: string, scheduled_times: [string]}` — the date under the key
`date` and the remaining timestamps under the key `scheduled_times`
(not `pending_times`). -/
theorem state_record_schema (date : String) (times : List String) :
    (state_record date times).map Prod.fst = ["date", "scheduled_times"] ∧
    List.lookup "date" (state_record date times) = some (.str date) ∧
    List.lookup "scheduled_times" (state_record date times) =
      some (.arr (times.map .str)) := by
  refine ⟨rfl, rfl, ?_⟩
  simp [state_record, List.lookup]

/-- C4: when the stored date differs from today, the next loop iteration
replaces the state wholesale with a freshly generated schedule dated
today; the result does not depend on the old pending times, so they are
never merged in. -/
theorem rollover_discards_old_state (today : String) (fresh : List String)
    (st : FarmState) (hne : st.date ≠ today) :
    rollover_refresh today fresh st =
      { date := today, scheduled_times := fresh } ∧
    ∀ old : List String,
      rollover_refresh today fresh { date := st.date, scheduled_times := old } =
        { date := today, scheduled_times := fresh } := by
  refine ⟨?_, fun old => ?_⟩ <;> simp [rollover_refresh, hne]

/-- C4 (witness): a state dated yesterday is discarded and replaced by
the fresh schedule dated today. -/
theorem rollover_discards_old_state_witness :
    rollover_refresh "2025-01-02" ["2025-01-02T11:00:00"]
      { date := "2025-01-01", scheduled_times := ["2025-01-01T10:00:00"] } =
      { date := "2025-01-02", scheduled_times := ["2025-01-02T11:00:00"] } ∧
    ∀ old : List String,
      rollover_refresh "2025-01-02" ["2025-01-02T11:00:00"]
        { date := "2025-01-01", scheduled_times := old } =
        { date := "2025-01-02", scheduled_times := ["2025-01-02T11:00:00"] } :=
  rollover_discards_old_state "2025-01-02" ["2025-01-02T11:00:00"]
    { date := "2025-01-01", scheduled_times := ["2025-01-01T10:00:00"] }
    (by decide)

/-- C5: on a duplicate-free pending list (the generator only ever
produces distinct timestamps), firing an event removes exactly the
consumed timestamp: the post-fire list is the pre-fire list with that
one entry erased, it is a sublist of the original (all other entries
unchanged and in their original order), and the fired value is gone. -/
theorem remove_fired_exact (v : String) (times : List String)
    (hnd : times.Nodup) :
    remove_fired v times = times.erase v ∧
    (remove_fired v times).Sublist times ∧
    v ∉ remove_fired v times := by
  refine ⟨?_, List.filter_sublist _, ?_⟩
  · induction times with
    | nil => rfl
    | cons a l ih =>
      rcases List.nodup_cons.mp hnd with ⟨ha, hl⟩
      by_cases hv : a = v
      · subst hv
        rw [List.erase_cons_head]
        simp only [remove_fired, List.filter_cons]
        have : (decide (a ≠ a)) = false := by simp
        rw [this]
        apply List.filter_eq_self.mpr
        intro b hb
        simp only [decide_eq_true_iff]
        exact fun hba => ha (hba ▸ hb)
      · rw [List.erase_cons_tail (by simpa using hv)]
        simp only [remove_fired, List.filter_cons]
        have : (decide (a ≠ v)) = true := by simpa using hv
        rw [this]
        simpa [remove_fired] using ih hl
  · intro hmem
    rcases List.mem_filter.mp hmem with ⟨-, hv⟩
    simp at hv

/-- C5 (witness): removal instantiated at a concrete pending list. -/
theorem remove_fired_exact_witness :
    remove_fired "b" ["a", "b", "c"] = List.erase ["a", "b", "c"] "b" ∧
    (remove_fired "b" ["a", "b", "c"]).Sublist ["a", "b", "c"] ∧
    "b" ∉ remove_fired "b" ["a", "b", "c"] :=
  remove_fired_exact "b" ["a", "b", "c"] (by decide)

/-- C8: loading the persisted state fails soft — a missing file, an
unreadable file and unparseable content all yield the empty record, and
the function is total, so no failure propagates as a fatal exception. -/
theorem read_state_fails_soft (parseJson : String → Option JsonVal) :
    read_state parseJson .missing = .obj [] ∧
    read_state parseJson .unreadable = .obj [] ∧
    ∀ s, parseJson s = none → read_state parseJson (.content s) = .obj [] := by
  refine ⟨rfl, rfl, fun s hs => ?_⟩
  simp [read_state, hs]

/-- C8 (witness): the soft-failure theorem instantiated with a parser
that rejects its input, evaluated at concrete content. -/
theorem read_state_fails_soft_witness :
    read_state (fun _ => none) .missing = .obj [] ∧
    read_state (fun _ => none) .unreadable = .obj [] ∧
    read_state (fun _ => (none : Option JsonVal)) (.content "not json") =
      .obj [] :=
  ⟨(read_state_fails_soft fun _ => none).1,
   (read_state_fails_soft fun _ => none).2.1,
   (read_state_fails_soft fun _ => none).2.2 "not json" rfl⟩

/-- C6: on a pending list whose entries all parse and whose parsed values
are strictly ascending (the invariant the generator establishes), the
next due timestamp is `none` exactly when no entry is strictly in the
future, and when it is `some d` then `d` is a future entry and is the
earliest future entry; past entries are skipped without ever being
returned. -/
theorem next_scheduled_time_earliest (parse : String → Option ℕ) (now : ℕ)
    (l : List String) (vs : List ℕ)
    (hpar : List.Forall₂ (fun t v => parse t = some v) l vs)
    (hsort : vs.Sorted (· < ·)) :
    (next_scheduled_time parse now l = none ↔ ∀ v ∈ vs, v ≤ now) ∧
    ∀ d, next_scheduled_time parse now l = some d →
      now < d ∧ d ∈ vs ∧ ∀ v ∈ vs, now < v → d ≤ v := by
  induction hpar with
  | nil => simp [next_scheduled_time]
  | @cons t v l vs hpv htl ih =>
    rcases List.sorted_cons.mp hsort with ⟨hvlt, hvs⟩
    have hrec := ih hvs
    by_cases hlt : now < v
    · constructor
      · constructor
        · intro hnone
          rw [next_scheduled_time, hpv] at hnone
          simp [hlt] at hnone
        · intro hall
          exact absurd (hall v (List.mem_cons_self v vs)) (by omega)
      · intro d hd
        rw [next_scheduled_time, hpv] at hd
        simp only [if_pos hlt, Option.some.injEq] at hd
        subst hd
        refine ⟨hlt, List.mem_cons_self _ _, ?_⟩
        intro w hw _
        rcases List.mem_cons.mp hw with h | h
        · omega
        · exact le_of_lt (hvlt w h)
    · have hstep : next_scheduled_time parse now (t :: l) =
          next_scheduled_time parse now l := by
        rw [next_scheduled_time, hpv]
        simp [hlt]
      rw [hstep]
      constructor
      · rw [hrec.1]
        constructor
        · intro hall w hw
          rcases List.mem_cons.mp hw with h | h
          · omega
          · exact hall w h
        · intro hall w hw
          exact hall w (List.mem_cons_of_mem _ hw)
      · intro d hd
        obtain ⟨h1, h2, h3⟩ := hrec.2 d hd
        refine ⟨h1, List.mem_cons_of_mem _ h2, ?_⟩
        intro w hw hnw
        rcases List.mem_cons.mp hw with h | h
        · omega
        · exact h3 w h hnw

/-- C6 (witness): the earliest-future theorem instantiated at a concrete
sorted list with a past entry to skip, with the external timestamp parser
instantiated by a finite table. -/
theorem next_scheduled_time_earliest_witness :
    (next_scheduled_time
        (fun s => List.lookup s [("5", 5), ("10", 10), ("20", 20)]) 7
        ["5", "10", "20"] = none ↔ ∀ v ∈ [5, 10, 20], v ≤ 7) ∧
    ∀ d, next_scheduled_time
        (fun s => List.lookup s [("5", 5), ("10", 10), ("20", 20)]) 7
        ["5", "10", "20"] = some d →
      7 < d ∧ d ∈ [5, 10, 20] ∧ ∀ v ∈ [5, 10, 20], 7 < v → d ≤ v :=
  next_scheduled_time_earliest
    (fun s => List.lookup s [("5", 5), ("10", 10), ("20", 20)]) 7
    ["5", "10", "20"] [5, 10, 20]
    (List.Forall₂.cons rfl (List.Forall₂.cons rfl
      (List.Forall₂.cons rfl List.Forall₂.nil)))
    (by decide)

/-- C10: if the stored date equals today but some stored entry does not
parse as a timestamp, the RESUME purge propagates the parse failure —
unlike `read_state` and `next_scheduled_time`, nothing catches it, so the
loop aborts and the process exits non-zero. -/
theorem resume_purge_fatal_on_bad_entry (parse : String → Option ℕ)
    (today : String) (now : ℕ) (fresh : List String) (st : FarmState)
    (hdate : st.date = today)
    (hbad : ∃ t ∈ st.scheduled_times, parse t = none) :
    ∃ e, init_branch parse today now fresh st = .error e ∧
      process_exit_code (init_branch parse today now fresh st) = 1 := by
  have herr : ∀ (l : List String), (∃ t ∈ l, parse t = none) →
      ∃ e, resume_purge parse now l = .error e := by
    intro l
    induction l with
    | nil => rintro ⟨t, ht, -⟩; exact absurd ht (List.not_mem_nil t)
    | cons a l ih =>
      rintro ⟨t, ht, hp⟩
      rw [resume_purge]
      rcases List.mem_cons.mp ht with rfl | hmem
      · rw [hp]; exact ⟨t, rfl⟩
      · cases hpa : parse a with
        | none => exact ⟨a, rfl⟩
        | some dt =>
          obtain ⟨e, he⟩ := ih ⟨t, hmem, hp⟩
          rw [he]
          exact ⟨e, rfl⟩
  obtain ⟨e, he⟩ := herr st.scheduled_times hbad
  have hini : init_branch parse today now fresh st = .error e := by
    rw [init_branch, if_neg (by simp [hdate]), he]
    rfl
  exact ⟨e, hini, by rw [hini]; rfl⟩

/-- C10 (witness): a today-dated state containing an unparseable entry
makes the RESUME branch abort with exit code 1; the external timestamp
parser is instantiated by a finite table that rejects the bad entry. -/
theorem resume_purge_fatal_witness :
    ∃ e, init_branch (fun s => List.lookup s [("5", 5), ("20", 20)])
        "2025-01-02" 0 []
        { date := "2025-01-02", scheduled_times := ["5", "oops", "20"] } =
        .error e ∧
      process_exit_code
        (init_branch (fun s => List.lookup s [("5", 5), ("20", 20)])
          "2025-01-02" 0 []
          { date := "2025-01-02", scheduled_times := ["5", "oops", "20"] }) = 1 :=
  resume_purge_fatal_on_bad_entry
    (fun s => List.lookup s [("5", 5), ("20", 20)]) "2025-01-02" 0 []
    { date := "2025-01-02", scheduled_times := ["5", "oops", "20"] }
    rfl ⟨"oops", by simp, rfl⟩

/-- C2 (counterexample to the original claim): an exception raised while
appending the activity line — part of the FIRE side effect — is not
caught anywhere in the loop: the iteration aborts before the consumed
timestamp is removed or the state persisted, so this side-effect failure
does abort the scheduling loop (the top-level handler then exits the
process non-zero). -/
theorem fire_step_append_error_counterexample :
    fire_step (.error "disk full") true ⟨0, ""⟩ ⟨0, ""⟩ ⟨0, ""⟩ true
      "2025-01-01T10:00:00" ["2025-01-01T10:00:00"] = .error "disk full" ∧
    process_exit_code (fire_step (.error "disk full") true ⟨0, ""⟩ ⟨0, ""⟩
      ⟨0, ""⟩ true "2025-01-01T10:00:00" ["2025-01-01T10:00:00"]) = 1 :=
  ⟨rfl, rfl⟩

/-- C2 (amended): side-effect failures reported through non-zero git
exit codes — commit failure, push failure and the nothing-to-commit
no-op — are logged and non-fatal: whenever git is present and the append
succeeded, FIRE completes normally for every combination of subprocess
results, and the consumed timestamp is removed from the pending list
regardless of the outcome; an exception inside `append_activity_line`
(or a missing git binary), however, propagates and aborts the loop. -/
theorem fire_step_git_failures_nonfatal
    (addRes commitRes pushRes : ProcResult) (push : Bool)
    (fired : String) (times : List String) :
    (∃ oc, fire_step (.ok ()) true addRes commitRes pushRes push fired
        times = .ok (oc, remove_fired fired times)) ∧
    (commitRes.code ≠ 0 →
      containsText "nothing to commit" (strLower commitRes.stderr) = true →
      fire_step (.ok ()) true addRes commitRes pushRes push fired times =
        .ok (.nothingToCommit, remove_fired fired times)) ∧
    (commitRes.code = 0 → push = true → pushRes.code ≠ 0 →
      fire_step (.ok ()) true addRes commitRes pushRes push fired times =
        .ok (.committed (some false), remove_fired fired times)) := by
  refine ⟨?_, ?_, ?_⟩
  · by_cases hc : commitRes.code = 0
    · by_cases hp : push
      · by_cases hz : pushRes.code = 0
        · exact ⟨.committed (some true),
            by simp [fire_step, perform_commit, run_git_command, hc, hp, hz]⟩
        · exact ⟨.committed (some false),
            by simp [fire_step, perform_commit, run_git_command, hc, hp, hz]⟩
      · exact ⟨.committed none,
          by simp [fire_step, perform_commit, run_git_command, hc, hp]⟩
    · by_cases hn : containsText "nothing to commit" (strLower commitRes.stderr)
      · exact ⟨.nothingToCommit,
          by simp [fire_step, perform_commit, run_git_command, hc, hn]⟩
      · exact ⟨.commitFailed,
          by simp [fire_step, perform_commit, run_git_command, hc, hn]⟩
  · intro hc hn
    simp [fire_step, perform_commit, run_git_command, hc, hn]
  · intro hc hp hz
    simp [fire_step, perform_commit, run_git_command, hc, hp, hz]

/-- C2 (witness): a failing `git commit` whose stderr reports a clean
tree is classified as the nothing-to-commit no-op, FIRE completes, and
exactly the consumed timestamp is removed. -/
theorem fire_step_git_failures_nonfatal_witness :
    fire_step (.ok ()) true ⟨0, ""⟩
      ⟨1, "On branch main\nNothing to commit, working tree clean"⟩
      ⟨0, ""⟩ true "t1" ["t0", "t1", "t2"] =
      .ok (.nothingToCommit, remove_fired "t1" ["t0", "t1", "t2"]) :=
  (fire_step_git_failures_nonfatal ⟨0, ""⟩
      ⟨1, "On branch main\nNothing to commit, working tree clean"⟩
      ⟨0, ""⟩ true "t1" ["t0", "t1", "t2"]).2.1 (by decide) (by decide)

theorem idle_sleep_chunks_bound (D : ℕ) :
    ∀ (kill : ℕ → Bool), ∀ c ∈ idle_sleep_chunks D kill, c ≤ 60 := by
  induction D using Nat.strong_induction_on with
  | _ D ih =>
    intro kill c hc
    rcases D with _ | r
    · simp [idle_sleep_chunks] at hc
    · simp only [idle_sleep_chunks] at hc
      by_cases hk : kill 0
      · rw [if_pos hk] at hc
        exact absurd hc (List.not_mem_nil c)
      · rw [if_neg hk] at hc
        rcases List.mem_cons.mp hc with rfl | hmem
        · exact Nat.min_le_left _ _
        · exact ih (r + 1 - min 60 (r + 1)) (by omega) _ c hmem

theorem event_sleep_chunks_bound (E : ℕ) :
    ∀ (kill : ℕ → Bool), ∀ c ∈ event_sleep_chunks E kill, c ≤ 30 := by
  induction E using Nat.strong_induction_on with
  | _ E ih =>
    intro kill c hc
    rcases E with _ | r
    · simp [event_sleep_chunks] at hc
    · simp only [event_sleep_chunks] at hc
      by_cases hk : kill 0
      · rw [if_pos hk] at hc
        exact absurd hc (List.not_mem_nil c)
      · rw [if_neg hk] at hc
        rcases List.mem_cons.mp hc with rfl | hmem
        · exact Nat.min_le_left _ _
        · exact ih (r + 1 - min 30 (r + 1)) (by omega) _ c hmem

theorem idle_sleep_chunks_halt (D : ℕ) :
    ∀ (kill : ℕ → Bool) (j : ℕ), kill j = true →
      (idle_sleep_chunks D kill).length ≤ j := by
  induction D using Nat.strong_induction_on with
  | _ D ih =>
    intro kill j hj
    rcases D with _ | r
    · simp [idle_sleep_chunks]
    · simp only [idle_sleep_chunks]
      by_cases hk : kill 0
      · simp [hk]
      · rw [if_neg hk]
        rcases j with _ | j
        · exact absurd hj hk
        · simp only [List.length_cons]
          have hrec := ih (r + 1 - min 60 (r + 1)) (by omega)
            (fun i => kill (i + 1)) j hj
          omega

theorem event_sleep_chunks_halt (E : ℕ) :
    ∀ (kill : ℕ → Bool) (j : ℕ), kill j = true →
      (event_sleep_chunks E kill).length ≤ j := by
  induction E using Nat.strong_induction_on with
  | _ E ih =>
    intro kill j hj
    rcases E with _ | r
    · simp [event_sleep_chunks]
    · simp only [event_sleep_chunks]
      by_cases hk : kill 0
      · simp [hk]
      · rw [if_neg hk]
        rcases j with _ | j
        · exact absurd hj hk
        · simp only [List.length_cons]
          have hrec := ih (r + 1 - min 30 (r + 1)) (by omega)
            (fun i => kill (i + 1)) j hj
          omega

/-- C9: both sleep loops work in bounded increments — at most 60 units
per chunk in IDLE_SLEEP, at most 30 in EVENT_SLEEP — the cancellation
flag is polled before every increment, so once the flag reads true at
check `j` no further chunk is slept (at most `j` chunks happen in total,
regardless of the requested durations `D` and `E`), and the flag is
polled once more before firing, so the side effect does not fire when
the final check sees the flag set. -/
theorem sleep_cancellation_bounded (D E j : ℕ) (kill : ℕ → Bool)
    (hj : kill j = true) :
    (∀ c ∈ idle_sleep_chunks D kill, c ≤ 60) ∧
    (∀ c ∈ event_sleep_chunks E kill, c ≤ 30) ∧
    (idle_sleep_chunks D kill).length ≤ j ∧
    (event_sleep_chunks E kill).length ≤ j ∧
    (kill (event_sleep_chunks E kill).length = true →
      event_wait_fires E kill = false) := by
  refine ⟨idle_sleep_chunks_bound D kill, event_sleep_chunks_bound E kill,
    idle_sleep_chunks_halt D kill j hj, event_sleep_chunks_halt E kill j hj,
    ?_⟩
  intro hfin
  simp [event_wait_fires, hfin]

/-- C9 (witness): with termination requested at the second check, a
requested idle sleep of 300 units and an event sleep of 100 units both
stop after at most two chunks, and the event does not fire when the
final check sees the flag. -/
theorem sleep_cancellation_bounded_witness :
    (∀ c ∈ idle_sleep_chunks 300 (fun i => decide (2 ≤ i)), c ≤ 60) ∧
    (∀ c ∈ event_sleep_chunks 100 (fun i => decide (2 ≤ i)), c ≤ 30) ∧
    (idle_sleep_chunks 300 (fun i => decide (2 ≤ i))).length ≤ 2 ∧
    (event_sleep_chunks 100 (fun i => decide (2 ≤ i))).length ≤ 2 ∧
    ((fun i => decide (2 ≤ i))
        (event_sleep_chunks 100 (fun i => decide (2 ≤ i))).length = true →
      event_wait_fires 100 (fun i => decide (2 ≤ i)) = false) :=
  sleep_cancellation_bounded 300 100 2 (fun i => decide (2 ≤ i)) (by decide)

end CommitFarm
